import Mathlib

/-!
Shallow embedding of the Game of Life engine from `src/game_of_life.rs`.

The Rust struct `GameOfLife` holds a sparse live-cell set
`state : HashSet<(i32, i32)>` and an undo buffer
`history : VecDeque<HashSet<(i32, i32)>>`.  We model the hash set as a
`Finset (ℤ × ℤ)` and the deque as a `List` of such sets, oldest entry
first (`push_back` appends at the end, `pop_back` removes the last
element, `pop_front` removes the head), exactly mirroring the deque
operations the source uses.  Coordinates are modelled as unbounded
integers; the i32 wrap-around behaviour of the source's neighbour
arithmetic is modelled separately (`wrap32`, `get_neighbors_wrapping`).

The derived Rust `PartialEq`/`Eq` compares all fields, i.e. both
`state` and `history`; this is mirrored by propositional equality `=`
on the structure below (two values are `=` iff both fields agree).
-/

/-- `const HISTORY_LIMIT: usize = 255;` -/
def HISTORY_LIMIT : ℕ := 255

/-- A cell coordinate `(i32, i32)`, modelled on unbounded integers. -/
abbrev Cell : Type := ℤ × ℤ

/-- The Rust struct `GameOfLife { state, history }`. -/
structure GameOfLife where
  state : Finset Cell
  history : List (Finset Cell)
deriving DecidableEq

/-- `GameOfLife::new()` — `Self::default()`: empty set, empty deque. -/
def GameOfLife.new : GameOfLife := { state := ∅, history := [] }

/-- `get(&self, x, y) -> bool`: membership in the live-cell set. -/
def GameOfLife.get (g : GameOfLife) (x y : ℤ) : Bool :=
  decide ((x, y) ∈ g.state)

/-- `set(&mut self, x, y)`: `self.state.insert((x, y))`. -/
def GameOfLife.set (g : GameOfLife) (x y : ℤ) : GameOfLife :=
  { g with state := insert (x, y) g.state }

/-- `unset(&mut self, x, y)`: `self.state.remove(&(x, y))`. -/
def GameOfLife.unset (g : GameOfLife) (x y : ℤ) : GameOfLife :=
  { g with state := g.state.erase (x, y) }

/-- `clear(&mut self)`: `self.state.clear()`. -/
def GameOfLife.clear (g : GameOfLife) : GameOfLife :=
  { g with state := ∅ }

/-- `toggle(&mut self, x, y) -> bool`: flips the cell, returns the new state. -/
def GameOfLife.toggle (g : GameOfLife) (x y : ℤ) : GameOfLife × Bool :=
  if g.get x y then (g.unset x y, false) else (g.set x y, true)

/-- The loop bounds `-1..=1` of `get_neighbors`. -/
def deltas : List ℤ := [-1, 0, 1]

/-- Modelled from the spec: the 8-coordinate Moore neighbourhood on
the conceptually unbounded grid, in the source's push order (outer
loop `dy`, inner loop `dx`, skipping `(0, 0)`).  This is the spec-side
idealisation with exact integer sums; the source's `get_neighbors`
computes the same sums on `i32`, which wraps — see
`get_neighbors_wrapping` below, which is what `tick` uses. -/
def get_neighbors (x y : ℤ) : List Cell :=
  deltas.flatMap (fun dy =>
    (deltas.filter (fun dx => !(dx == 0 && dy == 0))).map
      (fun dx => (x + dx, y + dy)))

/-- i32 two's-complement wrap-around: release-mode Rust `i32` addition
computes the mathematical result modulo `2^32`, re-centred on
`[-2^31, 2^31)`. -/
def wrap32 (z : ℤ) : ℤ :=
  (z + 2 ^ 31) % 2 ^ 32 - 2 ^ 31

/-- `get_neighbors(x, y)` as actually computed on `i32` in release
builds: each component addition `x + dx` / `y + dy` wraps modulo
`2^32`. -/
def get_neighbors_wrapping (x y : ℤ) : List Cell :=
  deltas.flatMap (fun dy =>
    (deltas.filter (fun dx => !(dx == 0 && dy == 0))).map
      (fun dx => (wrap32 (x + dx), wrap32 (y + dy))))

/-- The rule table of `tick`'s
`match (live_neighbor_count, self.get(*x, *y))` expression. -/
def rule (live_neighbor_count : ℕ) (alive : Bool) : Bool :=
  match live_neighbor_count, alive with
  | 0, true => false
  | 1, true => false
  | 2, true => true
  | 3, true => true
  | _, true => false
  | 3, false => true
  | _, false => false

/-- `snapshot(&mut self)`: pop the front when at capacity, then push
the current state at the back. -/
def GameOfLife.snapshot (g : GameOfLife) : GameOfLife :=
  { g with history :=
      (if g.history.length = HISTORY_LIMIT then g.history.tail else g.history)
        ++ [g.state] }

/-- `tick(&mut self)`: snapshot, then rebuild `state` as the candidate
set (union of all live cells' neighbours) filtered by the rule table,
with neighbour counts read from the pre-tick state.  The neighbour
coordinates are formed with `i32` addition, so both the candidate set
and the counts use the wrapping `get_neighbors_wrapping`. -/
def GameOfLife.tick (g : GameOfLife) : GameOfLife :=
  let gs := g.snapshot
  let neighbors : Finset Cell :=
    gs.state.biUnion (fun c => (get_neighbors_wrapping c.1 c.2).toFinset)
  { state :=
      neighbors.filter (fun c =>
        rule ((get_neighbors_wrapping c.1 c.2).filter (fun n => gs.get n.1 n.2)).length
            (gs.get c.1 c.2) = true),
    history := gs.history }

/-- `can_undo(&self) -> bool`: `!self.history.is_empty()`. -/
def GameOfLife.can_undo (g : GameOfLife) : Bool :=
  !g.history.isEmpty

/-- `undo(&mut self) -> bool`: `pop_back`, restoring the popped
snapshot when one exists. -/
def GameOfLife.undo (g : GameOfLife) : GameOfLife × Bool :=
  match g.history.getLast? with
  | some previous => ({ state := previous, history := g.history.dropLast }, true)
  | none => (g, false)

/-- The two ways `cells_at` can fail to return: the explicit
`assert!` on negative dimensions, and the i32 overflow of
`width * height` — when the product leaves the i32 range the buffer
size wraps and the subsequent indexing (or the allocation itself)
panics, so the call never returns normally. -/
inductive Panic : Type
  | assertionFailed
  | capacityOverflow
deriving DecidableEq

/-- `cells_at(&self, width, height, origin_x, origin_y) -> Vec<u8>`:
asserts non-negative dimensions, allocates a `(width * height)`-byte
buffer (this product is computed in `i32`: when it exceeds
`i32::MAX` the call panics instead of returning, modelled as
`Panic.capacityOverflow`), then fills it row-major, index
`y * width + x` (in range, hence exact, whenever the product fits)
holding `get(origin_x + x, origin_y + y)` as 0/1, where the origin
additions are release-mode `i32` additions and therefore wrap. -/
def GameOfLife.cells_at (g : GameOfLife) (width height origin_x origin_y : ℤ) :
    Except Panic (List ℕ) :=
  if 0 ≤ width ∧ 0 ≤ height then
    if width * height ≤ 2 ^ 31 - 1 then
      .ok ((List.range height.toNat).flatMap (fun y : ℕ =>
        (List.range width.toNat).map (fun x : ℕ =>
          if g.get (wrap32 (origin_x + (x : ℤ))) (wrap32 (origin_y + (y : ℤ))) then 1 else 0)))
    else
      .error .capacityOverflow
  else
    .error .assertionFailed

/-- `cells(&self, width, height)`: `cells_at` at the origin. -/
def GameOfLife.cells (g : GameOfLife) (width height : ℤ) : Except Panic (List ℕ) :=
  g.cells_at width height 0 0

/-- Modelled from the spec: "two Boards are equal iff their live-cell
sets are identical (order-independent, unaffected by any history)" —
structural equality on the live-cell set only. -/
def same_state (g₁ g₂ : GameOfLife) : Prop :=
  g₁.state = g₂.state

/-- Modelled from the spec: the brute-force whole-plane rule — a cell
is alive in generation N+1 iff it was alive with 2 or 3 live Moore
neighbours, or dead with exactly 3. -/
def spec_next_alive (s : Finset Cell) (x y : ℤ) : Prop :=
  ((x, y) ∈ s ∧
    (((get_neighbors x y).filter (fun n => decide (n ∈ s))).length = 2 ∨
     ((get_neighbors x y).filter (fun n => decide (n ∈ s))).length = 3)) ∨
  ((x, y) ∉ s ∧
    ((get_neighbors x y).filter (fun n => decide (n ∈ s))).length = 3)

/-- The public operations a driver can perform on a board. -/
inductive Op : Type
  | set (x y : ℤ)
  | unset (x y : ℤ)
  | toggle (x y : ℤ)
  | clear
  | tick
  | undo

/-- Apply one operation (discarding any returned boolean). -/
def applyOp (g : GameOfLife) : Op → GameOfLife
  | .set x y => g.set x y
  | .unset x y => g.unset x y
  | .toggle x y => (g.toggle x y).1
  | .clear => g.clear
  | .tick => g.tick
  | .undo => (g.undo).1

/-- Run a sequence of operations from a starting board. -/
def GameOfLife.run (g : GameOfLife) (ops : List Op) : GameOfLife :=
  ops.foldl applyOp g

/-! ## Helper lemmas -/

theorem mem_get_neighbors {c : Cell} {x y : ℤ} :
    c ∈ get_neighbors x y ↔
      (c.1 = x - 1 ∨ c.1 = x ∨ c.1 = x + 1) ∧
      (c.2 = y - 1 ∨ c.2 = y ∨ c.2 = y + 1) ∧ c ≠ (x, y) := by
  obtain ⟨a, b⟩ := c
  simp [get_neighbors, deltas, Prod.ext_iff]
  omega

theorem get_neighbors_symm {c d : Cell} :
    c ∈ get_neighbors d.1 d.2 ↔ d ∈ get_neighbors c.1 c.2 := by
  rw [mem_get_neighbors, mem_get_neighbors]
  simp only [ne_eq, Prod.ext_iff]
  constructor <;> intro h <;> omega

theorem rule_eq_true {n : ℕ} {alive : Bool} :
    rule n alive = true ↔
      (alive = true ∧ (n = 2 ∨ n = 3)) ∨ (alive = false ∧ n = 3) := by
  rcases alive <;> rcases n with _ | _ | _ | _ | m <;> simp [rule]

theorem exists_live_neighbor {s : Finset Cell} {x y : ℤ}
    (h : ((get_neighbors x y).filter (fun n => decide (n ∈ s))).length ≠ 0) :
    ∃ n ∈ s, (x, y) ∈ get_neighbors n.1 n.2 := by
  have h2 : (get_neighbors x y).filter (fun n => decide (n ∈ s)) ≠ [] := by
    intro hnil
    exact h (by rw [hnil]; rfl)
  obtain ⟨n, hn⟩ := List.exists_mem_of_ne_nil _ h2
  have := List.mem_filter.mp hn
  refine ⟨n, by simpa using this.2, ?_⟩
  exact get_neighbors_symm.mp (by simpa using this.1)

theorem snapshot_state (g : GameOfLife) : (g.snapshot).state = g.state := rfl

theorem snapshot_get (g : GameOfLife) (x y : ℤ) : (g.snapshot).get x y = g.get x y := rfl

instance spec_next_alive_decidable (s : Finset Cell) (x y : ℤ) :
    Decidable (spec_next_alive s x y) := by
  unfold spec_next_alive
  exact inferInstance

theorem get_eq_true_iff {g : GameOfLife} {x y : ℤ} :
    g.get x y = true ↔ (x, y) ∈ g.state := by
  simp [GameOfLife.get]

theorem tick_history (g : GameOfLife) : (g.tick).history = (g.snapshot).history := rfl

theorem snapshot_history (g : GameOfLife) :
    (g.snapshot).history =
      (if g.history.length = HISTORY_LIMIT then g.history.tail else g.history)
        ++ [g.state] := rfl

theorem tick_history_of_lt {g : GameOfLife} (h : g.history.length < HISTORY_LIMIT) :
    (g.tick).history = g.history ++ [g.state] := by
  rw [tick_history, snapshot_history, if_neg (Nat.ne_of_lt h)]

theorem toggle_fst_history (g : GameOfLife) (x y : ℤ) :
    ((g.toggle x y).1).history = g.history := by
  unfold GameOfLife.toggle
  split <;> rfl

theorem undo_fst_history_length (g : GameOfLife) :
    ((g.undo).1).history.length = g.history.length - 1 := by
  unfold GameOfLife.undo
  rcases h : g.history.getLast? with - | s
  · simp [List.getLast?_eq_none_iff.mp h]
  · simp

theorem tick_history_length {g : GameOfLife} (h : g.history.length ≤ HISTORY_LIMIT) :
    (g.tick).history.length = min (g.history.length + 1) HISTORY_LIMIT := by
  rw [tick_history, snapshot_history]
  rcases eq_or_ne g.history.length HISTORY_LIMIT with he | hne
  · rw [if_pos he]
    have ht : g.history.tail.length = g.history.length - 1 := List.length_tail _
    simp only [List.length_append, List.length_cons, List.length_nil, ht]
    unfold HISTORY_LIMIT at he ⊢
    omega
  · rw [if_neg hne]
    simp only [List.length_append, List.length_cons, List.length_nil]
    omega

theorem applyOp_history_le {g : GameOfLife} (h : g.history.length ≤ HISTORY_LIMIT) (op : Op) :
    (applyOp g op).history.length ≤ HISTORY_LIMIT := by
  rcases op with ⟨x, y⟩ | ⟨x, y⟩ | ⟨x, y⟩ | - | - | -
  · exact h
  · exact h
  · rw [show applyOp g (Op.toggle x y) = (g.toggle x y).1 from rfl, toggle_fst_history]
    exact h
  · exact h
  · rw [show applyOp g Op.tick = g.tick from rfl, tick_history_length h]
    omega
  · rw [show applyOp g Op.undo = (g.undo).1 from rfl, undo_fst_history_length]
    omega

theorem run_history_le (ops : List Op) :
    ∀ g : GameOfLife, g.history.length ≤ HISTORY_LIMIT →
      (g.run ops).history.length ≤ HISTORY_LIMIT := by
  induction ops with
  | nil => exact fun g h => h
  | cons op ops ih => exact fun g h => ih _ (applyOp_history_le h op)

theorem run_ticks_length (n : ℕ) :
    ∀ g : GameOfLife, g.history.length ≤ HISTORY_LIMIT →
      (g.run (List.replicate n Op.tick)).history.length =
        min (g.history.length + n) HISTORY_LIMIT := by
  induction n with
  | zero =>
    intro g h
    simp only [List.replicate_zero, GameOfLife.run, List.foldl_nil]
    omega
  | succ n ih =>
    intro g h
    have h1 : (g.tick).history.length = min (g.history.length + 1) HISTORY_LIMIT :=
      tick_history_length h
    have h2 : (g.tick).history.length ≤ HISTORY_LIMIT := by omega
    rw [List.replicate_succ]
    have h3 : g.run (Op.tick :: List.replicate n Op.tick) =
        (g.tick).run (List.replicate n Op.tick) := rfl
    rw [h3, ih _ h2, h1]
    omega

theorem run_undos_length (k : ℕ) :
    ∀ g : GameOfLife,
      (g.run (List.replicate k Op.undo)).history.length = g.history.length - k := by
  induction k with
  | zero =>
    intro g
    simp [GameOfLife.run]
  | succ k ih =>
    intro g
    rw [List.replicate_succ]
    have h3 : g.run (Op.undo :: List.replicate k Op.undo) =
        ((g.undo).1).run (List.replicate k Op.undo) := rfl
    rw [h3, ih, undo_fst_history_length]
    omega

theorem can_undo_iff_length (g : GameOfLife) :
    g.can_undo = true ↔ 0 < g.history.length := by
  simp [GameOfLife.can_undo, List.isEmpty_iff, List.length_pos]

theorem flatMap_rows_getElem {α : Type} {w : ℕ} :
    ∀ (L : List (List α)) (x y : ℕ), x < w → (∀ l ∈ L, l.length = w) → y < L.length →
      (L.flatMap id)[y * w + x]? = L[y]?.bind (fun l => l[x]?) := by
  intro L
  induction L with
  | nil =>
    intro x y hx hlen hy
    simp at hy
  | cons l L ih =>
    intro x y hx hlen hy
    have hl : l.length = w := hlen l (List.mem_cons_self l L)
    cases y with
    | zero =>
      rw [List.flatMap_cons]
      simp only [id_eq]
      rw [List.getElem?_append_left (by omega : 0 * w + x < l.length)]
      simp
    | succ y =>
      rw [List.flatMap_cons]
      simp only [id_eq]
      rw [List.getElem?_append_right (by rw [hl, Nat.succ_mul]; omega :
        l.length ≤ (y + 1) * w + x)]
      have hidx : (y + 1) * w + x - l.length = y * w + x := by
        rw [hl, Nat.succ_mul]
        omega
      rw [hidx, ih x y hx (fun m hm => hlen m (List.mem_cons_of_mem _ hm)) (by simpa using hy)]
      simp

theorem grid_getElem {α : Type} (f : ℕ → ℕ → α) (w H x y : ℕ) (hx : x < w) (hy : y < H) :
    ((List.range H).flatMap (fun yy => (List.range w).map (fun xx => f xx yy)))[y * w + x]? =
      some (f x y) := by
  have hmap : (List.range H).flatMap (fun yy => (List.range w).map (fun xx => f xx yy)) =
      ((List.range H).map (fun yy => (List.range w).map (fun xx => f xx yy))).flatMap id := by
    rw [List.flatMap_map]
    rfl
  rw [hmap, flatMap_rows_getElem _ x y hx ?_ ?_]
  · rw [List.getElem?_map, List.getElem?_range hy]
    simp [List.getElem?_map, List.getElem?_range hx]
  · intro l hl
    obtain ⟨yy, -, rfl⟩ := List.mem_map.mp hl
    simp
  · simpa using hy

theorem grid_length {α : Type} (f : ℕ → ℕ → α) (w H : ℕ) :
    ((List.range H).flatMap (fun yy => (List.range w).map (fun xx => f xx yy))).length =
      w * H := by
  rw [List.length_flatMap]
  have heq : (List.map (List.length ∘ fun yy => (List.range w).map (fun xx => f xx yy))
      (List.range H)) = List.map (fun _ => w) (List.range H) := by
    apply List.map_congr_left
    intro a ha
    simp
  rw [heq, List.map_const', List.length_range, List.sum_replicate, smul_eq_mul, Nat.mul_comm]

theorem get_neighbors_wrapping_eq (x y : ℤ) :
    get_neighbors_wrapping x y =
      [(wrap32 (x + -1), wrap32 (y + -1)), (wrap32 (x + 0), wrap32 (y + -1)),
       (wrap32 (x + 1), wrap32 (y + -1)), (wrap32 (x + -1), wrap32 (y + 0)),
       (wrap32 (x + 1), wrap32 (y + 0)), (wrap32 (x + -1), wrap32 (y + 1)),
       (wrap32 (x + 0), wrap32 (y + 1)), (wrap32 (x + 1), wrap32 (y + 1))] := rfl

theorem wrap32_bounds (z : ℤ) : -2 ^ 31 ≤ wrap32 z ∧ wrap32 z < 2 ^ 31 := by
  unfold wrap32
  have h1 : 0 ≤ (z + 2 ^ 31) % 2 ^ 32 := Int.emod_nonneg _ (by norm_num)
  have h2 : (z + 2 ^ 31) % 2 ^ 32 < 2 ^ 32 := Int.emod_lt_of_pos _ (by norm_num)
  omega

theorem wrap32_eq_self {z : ℤ} (h1 : -2 ^ 31 ≤ z) (h2 : z < 2 ^ 31) : wrap32 z = z := by
  unfold wrap32
  omega

theorem get_neighbors_eq (x y : ℤ) :
    get_neighbors x y =
      [(x + -1, y + -1), (x + 0, y + -1), (x + 1, y + -1), (x + -1, y + 0),
       (x + 1, y + 0), (x + -1, y + 1), (x + 0, y + 1), (x + 1, y + 1)] := rfl

theorem mem_get_neighbors_pair {a b x y : ℤ} :
    (a, b) ∈ get_neighbors x y ↔
      (a = x - 1 ∨ a = x ∨ a = x + 1) ∧ (b = y - 1 ∨ b = y ∨ b = y + 1) ∧
        ¬(a = x ∧ b = y) := by
  rw [mem_get_neighbors]
  simp [Prod.ext_iff]

theorem get_neighbors_wrapping_of_inside {x y : ℤ}
    (hx : -2 ^ 31 < x ∧ x < 2 ^ 31 - 1) (hy : -2 ^ 31 < y ∧ y < 2 ^ 31 - 1) :
    get_neighbors_wrapping x y = get_neighbors x y := by
  rw [get_neighbors_wrapping_eq, get_neighbors_eq,
    wrap32_eq_self (z := x + -1) (by omega) (by omega),
    wrap32_eq_self (z := x + 0) (by omega) (by omega),
    wrap32_eq_self (z := x + 1) (by omega) (by omega),
    wrap32_eq_self (z := y + -1) (by omega) (by omega),
    wrap32_eq_self (z := y + 0) (by omega) (by omega),
    wrap32_eq_self (z := y + 1) (by omega) (by omega)]

theorem get_false_of_fst_extreme {g : GameOfLife}
    (H : ∀ p q : ℤ, (p, q) ∈ g.state →
      -2 ^ 31 < p ∧ p < 2 ^ 31 - 1 ∧ -2 ^ 31 < q ∧ q < 2 ^ 31 - 1)
    {a b : ℤ} (ha : a ≤ -2 ^ 31 ∨ 2 ^ 31 - 1 ≤ a) : g.get a b = false := by
  rw [GameOfLife.get, decide_eq_false_iff_not]
  intro hmem
  have := H a b hmem
  omega

theorem get_false_of_snd_extreme {g : GameOfLife}
    (H : ∀ p q : ℤ, (p, q) ∈ g.state →
      -2 ^ 31 < p ∧ p < 2 ^ 31 - 1 ∧ -2 ^ 31 < q ∧ q < 2 ^ 31 - 1)
    {a b : ℤ} (hb : b ≤ -2 ^ 31 ∨ 2 ^ 31 - 1 ≤ b) : g.get a b = false := by
  rw [GameOfLife.get, decide_eq_false_iff_not]
  intro hmem
  have := H a b hmem
  omega

theorem get_wrap32_eq {g : GameOfLife}
    (H : ∀ p q : ℤ, (p, q) ∈ g.state →
      -2 ^ 31 < p ∧ p < 2 ^ 31 - 1 ∧ -2 ^ 31 < q ∧ q < 2 ^ 31 - 1)
    {a b : ℤ} (ha : -2 ^ 31 - 1 ≤ a ∧ a ≤ 2 ^ 31) (hb : -2 ^ 31 - 1 ≤ b ∧ b ≤ 2 ^ 31) :
    g.get (wrap32 a) (wrap32 b) = g.get a b := by
  by_cases hA : -2 ^ 31 ≤ a ∧ a < 2 ^ 31
  · by_cases hB : -2 ^ 31 ≤ b ∧ b < 2 ^ 31
    · rw [wrap32_eq_self hA.1 hA.2, wrap32_eq_self hB.1 hB.2]
    · have hb2 : b = -2 ^ 31 - 1 ∨ b = 2 ^ 31 := by omega
      have hwb : wrap32 b ≤ -2 ^ 31 ∨ 2 ^ 31 - 1 ≤ wrap32 b := by
        rcases hb2 with rfl | rfl
        · right
          decide
        · left
          decide
      rw [get_false_of_snd_extreme H hwb, get_false_of_snd_extreme H (by omega)]
  · have ha2 : a = -2 ^ 31 - 1 ∨ a = 2 ^ 31 := by omega
    have hwa : wrap32 a ≤ -2 ^ 31 ∨ 2 ^ 31 - 1 ≤ wrap32 a := by
      rcases ha2 with rfl | rfl
      · right
        decide
      · left
        decide
    rw [get_false_of_fst_extreme H hwa, get_false_of_fst_extreme H (by omega)]

theorem filter_length_congr {α : Type} {p q : α → Bool} :
    ∀ {l₁ l₂ : List α}, List.Forall₂ (fun a b => p a = q b) l₁ l₂ →
      (l₁.filter p).length = (l₂.filter q).length := by
  intro l₁ l₂ h
  induction h with
  | nil => rfl
  | cons hab htail ih =>
    simp only [List.filter_cons]
    rw [hab]
    split <;> simp [ih]

theorem wrapped_count_eq {g : GameOfLife}
    (H : ∀ p q : ℤ, (p, q) ∈ g.state →
      -2 ^ 31 < p ∧ p < 2 ^ 31 - 1 ∧ -2 ^ 31 < q ∧ q < 2 ^ 31 - 1)
    {x y : ℤ} (hx : -2 ^ 31 ≤ x ∧ x ≤ 2 ^ 31 - 1) (hy : -2 ^ 31 ≤ y ∧ y ≤ 2 ^ 31 - 1) :
    ((get_neighbors_wrapping x y).filter (fun n => g.get n.1 n.2)).length =
      ((get_neighbors x y).filter (fun n => g.get n.1 n.2)).length := by
  rw [get_neighbors_wrapping_eq, get_neighbors_eq]
  apply filter_length_congr
  refine .cons ?_ (.cons ?_ (.cons ?_ (.cons ?_ (.cons ?_ (.cons ?_ (.cons ?_
    (.cons ?_ .nil))))))) <;>
    exact get_wrap32_eq H (by omega) (by omega)

theorem candidate_bounds {g : GameOfLife}
    (H : ∀ p q : ℤ, (p, q) ∈ g.state →
      -2 ^ 31 < p ∧ p < 2 ^ 31 - 1 ∧ -2 ^ 31 < q ∧ q < 2 ^ 31 - 1)
    {x y : ℤ}
    (hin : (x, y) ∈ g.state.biUnion (fun c => (get_neighbors c.1 c.2).toFinset)) :
    -2 ^ 31 ≤ x ∧ x ≤ 2 ^ 31 - 1 ∧ -2 ^ 31 ≤ y ∧ y ≤ 2 ^ 31 - 1 := by
  rw [Finset.mem_biUnion] at hin
  obtain ⟨c, hc, hmc⟩ := hin
  rw [List.mem_toFinset, mem_get_neighbors_pair] at hmc
  have hb := H c.1 c.2 (by rwa [Prod.mk.eta])
  obtain ⟨h1, h2, -⟩ := hmc
  omega

theorem candidates_rule_iff (g : GameOfLife) (x y : ℤ) :
    ((x, y) ∈ g.state.biUnion (fun c => (get_neighbors c.1 c.2).toFinset) ∧
      rule ((get_neighbors x y).filter (fun n => g.get n.1 n.2)).length
        (g.get x y) = true) ↔ spec_next_alive g.state x y := by
  unfold spec_next_alive
  simp only [Finset.mem_biUnion, List.mem_toFinset, decide_eq_true_eq,
    GameOfLife.get, Prod.mk.eta]
  constructor
  · rintro ⟨-, hrule⟩
    rw [rule_eq_true] at hrule
    rcases hrule with ⟨halive, hcnt⟩ | ⟨hdead, hcnt⟩
    · exact Or.inl ⟨by simpa using halive, hcnt⟩
    · exact Or.inr ⟨by simpa using hdead, hcnt⟩
  · rintro (⟨hmem, hcnt⟩ | ⟨hnmem, hcnt⟩)
    · have hne : ((get_neighbors x y).filter (fun n => decide (n ∈ g.state))).length ≠ 0 := by
        rcases hcnt with h | h <;> omega
      obtain ⟨n, hns, hin⟩ := exists_live_neighbor hne
      exact ⟨⟨n, hns, hin⟩, rule_eq_true.mpr (Or.inl ⟨by simpa using hmem, hcnt⟩)⟩
    · have hne : ((get_neighbors x y).filter (fun n => decide (n ∈ g.state))).length ≠ 0 := by
        omega
      obtain ⟨n, hns, hin⟩ := exists_live_neighbor hne
      exact ⟨⟨n, hns, hin⟩, rule_eq_true.mpr (Or.inr ⟨by simpa using hnmem, hcnt⟩)⟩

/-! ## Claim theorems -/

/-- C1, corrected: for every board all of whose live cells have both
coordinates strictly inside the i32 range (above i32::MIN, below
i32::MAX), `tick` computes exactly the next generation of the
standard Game of Life rules — after `tick()`, a cell at any
coordinate is alive iff, in the pre-tick board, it was alive with
exactly 2 or 3 live Moore neighbours, or dead with exactly 3; the
frontier-restricted candidate-set algorithm then coincides with
brute-force whole-plane evaluation (and the empty board stays empty,
since `spec_next_alive ∅` never holds).  Without the interiority
hypothesis the i32 neighbour arithmetic wraps and the equivalence
fails — see the counterexample below. -/
theorem tick_matches_brute_force (g : GameOfLife)
    (H : ∀ c ∈ g.state,
      -2 ^ 31 < c.1 ∧ c.1 < 2 ^ 31 - 1 ∧ -2 ^ 31 < c.2 ∧ c.2 < 2 ^ 31 - 1)
    (x y : ℤ) :
    (g.tick).get x y = true ↔ spec_next_alive g.state x y := by
  have H' : ∀ p q : ℤ, (p, q) ∈ g.state →
      -2 ^ 31 < p ∧ p < 2 ^ 31 - 1 ∧ -2 ^ 31 < q ∧ q < 2 ^ 31 - 1 :=
    fun p q hm => H (p, q) hm
  rw [get_eq_true_iff]
  show (x, y) ∈ (g.tick).state ↔ _
  unfold GameOfLife.tick
  simp only [snapshot_state, snapshot_get, Finset.mem_filter]
  have hcand : g.state.biUnion (fun c => (get_neighbors_wrapping c.1 c.2).toFinset) =
      g.state.biUnion (fun c => (get_neighbors c.1 c.2).toFinset) := by
    refine Finset.biUnion_congr rfl (fun c hc => ?_)
    have hb := H' c.1 c.2 (by rwa [Prod.mk.eta])
    rw [get_neighbors_wrapping_of_inside ⟨hb.1, hb.2.1⟩ ⟨hb.2.2.1, hb.2.2.2⟩]
  rw [hcand]
  constructor
  · rintro ⟨hin, hrule⟩
    have hb := candidate_bounds H' hin
    rw [wrapped_count_eq H' ⟨hb.1, hb.2.1⟩ ⟨hb.2.2.1, hb.2.2.2⟩] at hrule
    exact (candidates_rule_iff g x y).mp ⟨hin, hrule⟩
  · intro hs
    obtain ⟨hin, hrule⟩ := (candidates_rule_iff g x y).mpr hs
    have hb := candidate_bounds H' hin
    refine ⟨hin, ?_⟩
    rw [wrapped_count_eq H' ⟨hb.1, hb.2.1⟩ ⟨hb.2.2.1, hb.2.2.2⟩]
    exact hrule

/-- Witness for C1 at a blinker, whose cells are strictly inside the
i32 range: the cell (2, 0) is born, as the brute-force rule says. -/
theorem tick_matches_brute_force_witness :
    ((GameOfLife.mk {((1 : ℤ), (1 : ℤ)), (2, 1), (3, 1)} []).tick).get 2 0 = true ↔
      spec_next_alive (GameOfLife.mk {((1 : ℤ), (1 : ℤ)), (2, 1), (3, 1)} []).state 2 0 :=
  tick_matches_brute_force _ (by decide) 2 0

/-- Counterexample to C1 as stated: a vertical triple at x = i32::MAX.
Brute-force evaluation makes (i32::MAX + 1, 1) alive (three live
neighbours), but the code's wrapped neighbour arithmetic never
produces that coordinate, so the biconditional fails there. -/
theorem tick_boundary_counterexample :
    ¬ (((GameOfLife.mk {((2 ^ 31 - 1 : ℤ), (0 : ℤ)), (2 ^ 31 - 1, 1), (2 ^ 31 - 1, 2)} []).tick).get
          (2 ^ 31) 1 = true ↔
        spec_next_alive
          (GameOfLife.mk {((2 ^ 31 - 1 : ℤ), (0 : ℤ)), (2 ^ 31 - 1, 1), (2 ^ 31 - 1, 2)} []).state
          (2 ^ 31) 1) := by
  decide

/-- C2: the claim says board equality ignores history; the code's
derived equality compares the `history` field too.  Concretely, a
fresh board and a fresh board after one `tick()` have identical
(empty) live-cell sets — `same_state`, the spec's equality, holds —
yet they compare unequal because their histories differ. -/
theorem eq_compares_history :
    same_state GameOfLife.new.tick GameOfLife.new ∧
    GameOfLife.new.tick ≠ GameOfLife.new := by
  constructor
  · show GameOfLife.new.tick.state = GameOfLife.new.state
    decide
  · decide

/-- C3: after `clear()` the live-cell set is empty and `get` is false
at every coordinate, but a board that has ticked once and then cleared
is NOT equal to `GameOfLife::new()` under the code's derived equality,
because its history still holds one snapshot. -/
theorem clear_not_new :
    (((GameOfLife.new.tick).clear).state = GameOfLife.new.state) ∧
    (∀ x y : ℤ, ((GameOfLife.new.tick).clear).get x y = false) ∧
    ((GameOfLife.new.tick).clear ≠ GameOfLife.new) := by
  refine ⟨by decide, ?_, by decide⟩
  intro x y
  simp [GameOfLife.get, GameOfLife.clear]

/-- C4: for a board whose history is below the retention limit,
`tick()` followed by `undo()` restores the original live-cell set. -/
theorem tick_undo_restores (g : GameOfLife) (h : g.history.length < HISTORY_LIMIT) :
    (((g.tick).undo).1).state = g.state := by
  unfold GameOfLife.undo
  rw [tick_history_of_lt h, List.getLast?_concat]

/-- Witness for C4 at the fresh board. -/
theorem tick_undo_restores_witness :
    GameOfLife.new.history.length < HISTORY_LIMIT ∧
    (((GameOfLife.new.tick).undo).1).state = GameOfLife.new.state :=
  ⟨by decide, tick_undo_restores GameOfLife.new (by decide)⟩

/-- C5: `can_undo()` is true iff the history is non-empty; `undo()`
returns true and replaces the live-cell set with the most recently
appended snapshot (removing it from the history) exactly when the
history is non-empty, and returns false leaving the board untouched
when it is empty. -/
theorem undo_can_undo_spec (g : GameOfLife) :
    (g.can_undo = true ↔ g.history ≠ []) ∧
    ((g.undo).2 = true ↔ g.history ≠ []) ∧
    (g.history = [] → g.undo = (g, false)) ∧
    (∀ s, g.history.getLast? = some s →
      g.undo = ({ state := s, history := g.history.dropLast }, true)) := by
  refine ⟨?_, ?_, ?_, ?_⟩
  · simp [GameOfLife.can_undo, List.isEmpty_iff]
  · unfold GameOfLife.undo
    rcases h : g.history.getLast? with - | s
    · simp [List.getLast?_eq_none_iff.mp h]
    · simp
      intro hnil
      rw [hnil] at h
      simp at h
  · intro h
    unfold GameOfLife.undo
    rw [h]
    rfl
  · intro s hs
    unfold GameOfLife.undo
    rw [hs]

/-- Witness for C5 at a board with one snapshot in its history. -/
theorem undo_can_undo_spec_witness :
    (GameOfLife.mk {((0 : ℤ), (0 : ℤ))} [{((1 : ℤ), (1 : ℤ))}]).undo =
      ({ state := {((1 : ℤ), (1 : ℤ))},
         history := ([{((1 : ℤ), (1 : ℤ))}] : List (Finset Cell)).dropLast }, true) :=
  (undo_can_undo_spec _).2.2.2 _ (by decide)

/-- C6: starting from a new board, no operation sequence ever grows
the history beyond 255 entries; a snapshot taken at capacity evicts
the oldest entry first (FIFO); and after more than 255 ticks, undo
succeeds for 255 consecutive calls and then `can_undo()` is false. -/
theorem history_bound :
    (∀ ops : List Op, (GameOfLife.new.run ops).history.length ≤ HISTORY_LIMIT) ∧
    (∀ g : GameOfLife, g.history.length = HISTORY_LIMIT →
      (g.snapshot).history = g.history.tail ++ [g.state]) ∧
    (∀ n : ℕ, HISTORY_LIMIT < n →
      (∀ k : ℕ, k < HISTORY_LIMIT →
        ((GameOfLife.new.run (List.replicate n Op.tick)).run
          (List.replicate k Op.undo)).can_undo = true) ∧
      ((GameOfLife.new.run (List.replicate n Op.tick)).run
        (List.replicate HISTORY_LIMIT Op.undo)).can_undo = false) := by
  refine ⟨fun ops => run_history_le ops _ (by simp [GameOfLife.new]),
    fun g h => by rw [snapshot_history, if_pos h], fun n hn => ?_⟩
  have hlen : (GameOfLife.new.run (List.replicate n Op.tick)).history.length =
      HISTORY_LIMIT := by
    rw [run_ticks_length n _ (by simp [GameOfLife.new])]
    have : GameOfLife.new.history.length = 0 := rfl
    omega
  constructor
  · intro k hk
    rw [can_undo_iff_length, run_undos_length, hlen]
    omega
  · have h0 : ((GameOfLife.new.run (List.replicate n Op.tick)).run
        (List.replicate HISTORY_LIMIT Op.undo)).history.length = 0 := by
      rw [run_undos_length, hlen]
      omega
    rcases hb : ((GameOfLife.new.run (List.replicate n Op.tick)).run
        (List.replicate HISTORY_LIMIT Op.undo)).can_undo with - | -
    · rfl
    · exfalso
      have := (can_undo_iff_length _).mp hb
      omega

/-- Witness for C6: FIFO eviction at capacity, and 256 ticks followed
by 255 undos exhausting the history. -/
theorem history_bound_witness :
    (GameOfLife.mk ∅ (List.replicate 255 ∅)).snapshot.history =
      (List.replicate 255 (∅ : Finset Cell)).tail ++ [∅] ∧
    ((GameOfLife.new.run (List.replicate 256 Op.tick)).run
      (List.replicate 0 Op.undo)).can_undo = true ∧
    ((GameOfLife.new.run (List.replicate 256 Op.tick)).run
      (List.replicate HISTORY_LIMIT Op.undo)).can_undo = false :=
  ⟨history_bound.2.1 _ (by
    rw [show (GameOfLife.mk ∅ (List.replicate 255 ∅)).history =
      List.replicate 255 (∅ : Finset Cell) from rfl, List.length_replicate]
    rfl),
   (history_bound.2.2 256 (by decide)).1 0 (by decide),
   (history_bound.2.2 256 (by decide)).2⟩

/-- C7, corrected: for non-negative `w`, `h` whose product fits in
i32, and any origin, `cells_at` succeeds with a sequence of length
`w*h` whose entry at row-major index `y*w + x` is 1 iff `get` at the
i32-wrapped coordinates `(wrap32 (ox+x), wrap32 (oy+y))` — which is
`get(ox+x, oy+y)` whenever those sums stay inside the i32 range —
and `cells` is `cells_at` at the origin.  When the product exceeds
i32::MAX the call panics instead (see the counterexample below). -/
theorem cells_at_spec (g : GameOfLife) (w h ox oy : ℤ) (hw : 0 ≤ w) (hh : 0 ≤ h)
    (hwh : w * h ≤ 2 ^ 31 - 1) :
    ∃ cs : List ℕ, g.cells_at w h ox oy = .ok cs ∧
      (cs.length : ℤ) = w * h ∧
      (∀ x y : ℤ, 0 ≤ x → x < w → 0 ≤ y → y < h →
        cs[(y * w + x).toNat]? =
          some (if g.get (wrap32 (ox + x)) (wrap32 (oy + y)) then 1 else 0)) ∧
      (∀ x y : ℤ, 0 ≤ x → x < w → 0 ≤ y → y < h →
        -2 ^ 31 ≤ ox + x → ox + x < 2 ^ 31 → -2 ^ 31 ≤ oy + y → oy + y < 2 ^ 31 →
        cs[(y * w + x).toNat]? = some (if g.get (ox + x) (oy + y) then 1 else 0)) ∧
      (∀ w' h' : ℤ, g.cells w' h' = g.cells_at w' h' 0 0) := by
  have key : ∀ x y : ℤ, 0 ≤ x → x < w → 0 ≤ y → y < h →
      ((List.range h.toNat).flatMap (fun y : ℕ => (List.range w.toNat).map (fun x : ℕ =>
        if g.get (wrap32 (ox + (x : ℤ))) (wrap32 (oy + (y : ℤ))) then 1
        else 0)))[(y * w + x).toNat]? =
        some (if g.get (wrap32 (ox + x)) (wrap32 (oy + y)) then 1 else 0) := by
    intro x y hx0 hxw hy0 hyh
    have hidx : (y * w + x).toNat = y.toNat * w.toNat + x.toNat := by
      have hc : ((y.toNat * w.toNat + x.toNat : ℕ) : ℤ) = y * w + x := by
        push_cast [Int.toNat_of_nonneg hx0, Int.toNat_of_nonneg hy0, Int.toNat_of_nonneg hw]
        ring
      rw [← hc, Int.toNat_natCast]
    rw [hidx, grid_getElem _ w.toNat h.toNat x.toNat y.toNat (by omega) (by omega)]
    rw [Int.toNat_of_nonneg hx0, Int.toNat_of_nonneg hy0]
  refine ⟨(List.range h.toNat).flatMap (fun y : ℕ => (List.range w.toNat).map (fun x : ℕ =>
      if g.get (wrap32 (ox + (x : ℤ))) (wrap32 (oy + (y : ℤ))) then 1 else 0)),
    ?_, ?_, key, ?_, fun w' h' => rfl⟩
  · unfold GameOfLife.cells_at
    rw [if_pos ⟨hw, hh⟩, if_pos hwh]
  · rw [grid_length]
    push_cast [Int.toNat_of_nonneg hw, Int.toNat_of_nonneg hh]
    ring
  · intro x y hx0 hxw hy0 hyh ha1 ha2 hb1 hb2
    have hk := key x y hx0 hxw hy0 hyh
    rw [wrap32_eq_self ha1 ha2, wrap32_eq_self hb1 hb2] at hk
    exact hk

/-- Witness for C7 on a 2×3 window of the fresh board. -/
theorem cells_at_spec_witness :
    ∃ cs : List ℕ, GameOfLife.new.cells_at 2 3 0 0 = .ok cs ∧
      (cs.length : ℤ) = 2 * 3 ∧
      (∀ x y : ℤ, 0 ≤ x → x < 2 → 0 ≤ y → y < 3 →
        cs[(y * 2 + x).toNat]? =
          some (if GameOfLife.new.get (wrap32 (0 + x)) (wrap32 (0 + y)) then 1 else 0)) ∧
      (∀ x y : ℤ, 0 ≤ x → x < 2 → 0 ≤ y → y < 3 →
        -2 ^ 31 ≤ 0 + x → 0 + x < 2 ^ 31 → -2 ^ 31 ≤ 0 + y → 0 + y < 2 ^ 31 →
        cs[(y * 2 + x).toNat]? = some (if GameOfLife.new.get (0 + x) (0 + y) then 1 else 0)) ∧
      (∀ w' h' : ℤ, GameOfLife.new.cells w' h' = GameOfLife.new.cells_at w' h' 0 0) :=
  cells_at_spec GameOfLife.new 2 3 0 0 (by decide) (by decide) (by decide)

/-- Counterexample to C7 as stated: at the non-negative dimensions
65536 × 65536 the i32 product `width * height` overflows, the call
panics, and no sequence at all is returned. -/
theorem cells_at_overflow_counterexample :
    (0 : ℤ) ≤ 65536 ∧
    ¬ ∃ cs : List ℕ, GameOfLife.new.cells_at 65536 65536 0 0 = .ok cs := by
  refine ⟨by norm_num, ?_⟩
  rintro ⟨cs, hcs⟩
  have hnone : GameOfLife.new.cells_at 65536 65536 0 0 = .error .capacityOverflow := by
    unfold GameOfLife.cells_at
    rw [if_pos ⟨by norm_num, by norm_num⟩, if_neg (by norm_num)]
  rw [hnone] at hcs
  exact Except.noConfusion hcs

/-- C8, corrected: `cells_at`'s assertion fires exactly when
`width < 0` or `height < 0` (never clamped); for non-negative
dimensions the assertion does not fire, and the call succeeds
provided additionally `width * height` fits in i32 — when the product
exceeds i32::MAX the call still fails, via the buffer-size overflow
panic rather than the assertion. -/
theorem cells_at_assert (g : GameOfLife) (w h ox oy : ℤ) :
    (g.cells_at w h ox oy = .error .assertionFailed ↔ w < 0 ∨ h < 0) ∧
    (0 ≤ w → 0 ≤ h → w * h ≤ 2 ^ 31 - 1 → ∃ cs, g.cells_at w h ox oy = .ok cs) ∧
    (0 ≤ w → 0 ≤ h → 2 ^ 31 - 1 < w * h →
      g.cells_at w h ox oy = .error .capacityOverflow) := by
  unfold GameOfLife.cells_at
  refine ⟨?_, ?_, ?_⟩
  · split <;> rename_i h1
    · split <;> rename_i h2
      · simp only [reduceCtorEq, false_iff]
        omega
      · simp only [Except.error.injEq, reduceCtorEq, false_iff]
        omega
    · simp only [true_iff]
      omega
  · intro hw hh hwh
    rw [if_pos ⟨hw, hh⟩, if_pos hwh]
    exact ⟨_, rfl⟩
  · intro hw hh hlt
    rw [if_pos ⟨hw, hh⟩, if_neg (by omega)]

/-- Witness for C8 at non-negative dimensions and a negative origin. -/
theorem cells_at_assert_witness :
    ∃ cs, GameOfLife.new.cells_at 4 5 (-7) 9 = .ok cs :=
  (cells_at_assert GameOfLife.new 4 5 (-7) 9).2.1 (by decide) (by decide) (by decide)

/-- Counterexample to C8 as stated: the call does not succeed at
every pair of non-negative dimensions — at 46341 × 46341 the i32
product overflows and the call panics (though the assertion itself
does not fire). -/
theorem cells_at_nonneg_failure_counterexample :
    (0 : ℤ) ≤ 46341 ∧
    GameOfLife.new.cells_at 46341 46341 0 0 = .error Panic.capacityOverflow := by
  refine ⟨by norm_num, ?_⟩
  unfold GameOfLife.cells_at
  rw [if_pos ⟨by norm_num, by norm_num⟩, if_neg (by norm_num)]

/-- C9: `set`, `unset`, `toggle` and `clear` leave the history buffer
unchanged; `tick` appends exactly one entry, equal to the pre-tick
live-cell set (it is the last entry, and below the limit the history
is exactly the old one plus that entry); `undo` removes the last
entry. -/
theorem mutators_frame (g : GameOfLife) (x y : ℤ) :
    (g.set x y).history = g.history ∧
    (g.unset x y).history = g.history ∧
    ((g.toggle x y).1).history = g.history ∧
    (g.clear).history = g.history ∧
    ((g.tick).history.getLast? = some g.state) ∧
    (g.history.length < HISTORY_LIMIT → (g.tick).history = g.history ++ [g.state]) ∧
    (g.history ≠ [] → ((g.undo).1).history = g.history.dropLast) := by
  refine ⟨rfl, rfl, ?_, rfl, ?_, ?_, ?_⟩
  · unfold GameOfLife.toggle
    split <;> rfl
  · rw [tick_history, snapshot_history, List.getLast?_concat]
  · exact fun h => tick_history_of_lt h
  · intro h
    obtain ⟨s, hs⟩ := Option.isSome_iff_exists.mp (List.getLast?_isSome.mpr h)
    unfold GameOfLife.undo
    rw [hs]

/-- Witness for C9 at a board with one live cell and one snapshot. -/
theorem mutators_frame_witness :
    ((GameOfLife.mk {((0 : ℤ), (0 : ℤ))} [∅]).tick).history =
      (GameOfLife.mk {((0 : ℤ), (0 : ℤ))} [∅]).history ++
        [(GameOfLife.mk {((0 : ℤ), (0 : ℤ))} [∅]).state] ∧
    (((GameOfLife.mk {((0 : ℤ), (0 : ℤ))} [∅]).undo).1).history =
      (GameOfLife.mk {((0 : ℤ), (0 : ℤ))} [∅]).history.dropLast :=
  ⟨(mutators_frame _ 0 0).2.2.2.2.2.1 (by decide),
   (mutators_frame _ 0 0).2.2.2.2.2.2 (by decide)⟩

/-- C10: the source forms neighbour coordinates with i32 addition,
so a cell with a component at i32::MAX (resp. i32::MIN) gets a
neighbour whose true coordinate overflows and wraps modulo 2^32 to
i32::MIN (resp. i32::MAX); every wrapped coordinate stays inside the
i32 range, so the grid is bounded by the i32 range. -/
theorem i32_neighbor_overflow :
    (wrap32 ((2 ^ 31 - 1) + 1) = -2 ^ 31 ∧ (-2 ^ 31 : ℤ) ≠ (2 ^ 31 - 1) + 1) ∧
    (wrap32 (-2 ^ 31 + -1) = 2 ^ 31 - 1 ∧ (2 ^ 31 - 1 : ℤ) ≠ -2 ^ 31 + -1) ∧
    (∀ y : ℤ, (-2 ^ 31, wrap32 (y + 0)) ∈ get_neighbors_wrapping (2 ^ 31 - 1) y) ∧
    (∀ y : ℤ, (2 ^ 31 - 1, wrap32 (y + 0)) ∈ get_neighbors_wrapping (-2 ^ 31) y) ∧
    (∀ x y : ℤ, ∀ c ∈ get_neighbors_wrapping x y,
      -2 ^ 31 ≤ c.1 ∧ c.1 < 2 ^ 31 ∧ -2 ^ 31 ≤ c.2 ∧ c.2 < 2 ^ 31) := by
  refine ⟨⟨by decide, by decide⟩, ⟨by decide, by decide⟩, ?_, ?_, ?_⟩
  · intro y
    have hmax : (-2 ^ 31 : ℤ) = wrap32 ((2 ^ 31 - 1) + 1) := by decide
    rw [get_neighbors_wrapping_eq, hmax]
    simp [List.mem_cons]
  · intro y
    have hmin : (2 ^ 31 - 1 : ℤ) = wrap32 (-2 ^ 31 + -1) := by decide
    rw [get_neighbors_wrapping_eq, hmin]
    simp [List.mem_cons]
  · intro x y c hc
    rw [get_neighbors_wrapping_eq] at hc
    simp only [List.mem_cons, List.not_mem_nil, or_false] at hc
    rcases hc with h | h | h | h | h | h | h | h <;>
      (rw [h]; exact ⟨(wrap32_bounds _).1, (wrap32_bounds _).2,
        (wrap32_bounds _).1, (wrap32_bounds _).2⟩)

/-- Witness for C10: the wrapped neighbour (-1, -1) of the origin is
inside the i32 range. -/
theorem i32_neighbor_overflow_witness :
    -2 ^ 31 ≤ ((-1 : ℤ), (-1 : ℤ)).1 ∧ ((-1 : ℤ), (-1 : ℤ)).1 < 2 ^ 31 ∧
    -2 ^ 31 ≤ ((-1 : ℤ), (-1 : ℤ)).2 ∧ ((-1 : ℤ), (-1 : ℤ)).2 < 2 ^ 31 :=
  i32_neighbor_overflow.2.2.2.2 0 0 ((-1 : ℤ), (-1 : ℤ)) (by decide)
